import Mathlib

/-!
Verification development for the Lumina eyewear scraper (src/scraper.js).

The file shallowly embeds the pure core of the scraper: the field
normalizers (detectShape, detectType, normalizeColor, parsePrice), the
per-page record construction of scrapeConfig, the run controller and
catalog reconciler of runScraper, and loadCachedProducts.  External
effects (the browser driver, the DOM, the file system, JSON.parse and
wall-clock time) enter as explicit parameters: a fetch oracle maps a
listing URL to either a failure (the navigation or extraction threw) or
the list of raw item bundles the page evaluation returned; the persisted
store is passed as a value describing the three read outcomes (file
absent, file unparsable, parsed list); timestamps are an opaque string
parameter.  JavaScript NaN, which Math.round propagates, is modelled by
Option: parsePrice returns none exactly where the JS function returns NaN.
-/

namespace Lumina

/-- JS String.prototype.toLowerCase, restricted to the character data the
scraper handles (ASCII keywords); modelled by mapping Char.toLower. -/
def jsToLower (s : String) : String := String.mk (s.toList.map Char.toLower)

/-- The pattern occurs at the start of the list: helper for substring
search, mirroring how a regex alternative or String.includes anchors at
one position. -/
def listHasPre (pat l : List Char) : Bool :=
  match pat, l with
  | [], _ => true
  | _ :: _, [] => false
  | p :: ps, c :: cs => p == c && listHasPre ps cs

/-- The pattern occurs somewhere in the list: JS String.prototype.includes
and the membership test a regex alternation such as /sun|tinted|polarized|uv/
performs for each plain-word alternative. -/
def listFind (pat l : List Char) : Bool :=
  match l with
  | [] => listHasPre pat []
  | _ :: cs => listHasPre pat l || listFind pat cs

/-- JS s.includes(pat) on the embedded strings. -/
def strIncludes (s pat : String) : Bool := listFind pat.toList s.toList

/-- regex.test for an alternation of plain keywords: true iff some keyword
occurs in the text. -/
def testAny (keys : List String) (text : String) : Bool :=
  keys.any (fun k => strIncludes text k)

/-- The round-family keywords of detectShape (src/scraper.js line 26). -/
def roundKeys : List String := ["round", "circle", "circular"]

/-- The aviator-family keywords of detectShape (line 27). -/
def aviatorKeys : List String := ["aviator", "pilot", "teardrop"]

/-- The square-family keywords of detectShape (line 28). -/
def squareKeys : List String := ["square", "rectangular", "angular"]

/-- detectShape (src/scraper.js lines 24-30): first matching keyword group
wins, default "rect". -/
def detectShape (name desc : String) : String :=
  let text := jsToLower (name ++ " " ++ desc)
  if testAny roundKeys text then "round"
  else if testAny aviatorKeys text then "aviator"
  else if testAny squareKeys text then "square"
  else "rect"

/-- The sunglasses keywords of detectType (src/scraper.js line 35). -/
def typeKeys : List String := ["sun", "tinted", "polarized", "uv"]

/-- detectType (src/scraper.js lines 33-37). -/
def detectType (name desc category : String) : String :=
  let text := jsToLower (name ++ " " ++ desc ++ " " ++ category)
  if testAny typeKeys text then "Sunglasses" else "Optical"

/-- COLOR_MAP (src/scraper.js lines 41-56) as the ordered key-value list
Object.entries iterates (string-key insertion order). -/
def COLOR_MAP : List (String × String) :=
  [("black", "Black"), ("dark", "Black"),
   ("gold", "Gold"), ("yellow", "Gold"),
   ("silver", "Silver"), ("chrome", "Silver"), ("gunmetal", "Silver"),
   ("grey", "Silver"), ("gray", "Silver"),
   ("tortoise", "Tortoise"), ("havana", "Tortoise"), ("brown", "Tortoise"),
   ("blue", "Blue"), ("navy", "Blue")]

/-- The for-of loop body of normalizeColor: first key contained in the
lowered input wins, fallback "Black" when the table is exhausted. -/
def colorLookup (lower : String) : List (String × String) → String
  | [] => "Black"
  | (k, v) :: rest => if strIncludes lower k then v else colorLookup lower rest

/-- normalizeColor (src/scraper.js lines 58-64). -/
def normalizeColor (raw : String) : String :=
  colorLookup (jsToLower raw) COLOR_MAP

/-- Character class [\d.] of the parsePrice regex. -/
def isPriceChar (c : Char) : Bool := c.isDigit || c == '.'

/-- raw.replace of all commas by the empty string. -/
def stripCommas (s : String) : String :=
  String.mk (s.toList.filter (fun c => !(c == ',')))

/-- First match of the regex /[\d.]+/ : the first maximal run of digits and
dots, none when the string holds no digit and no dot. -/
def firstNumericRun : List Char → Option (List Char)
  | [] => none
  | c :: cs =>
    if isPriceChar c then some (c :: cs.takeWhile isPriceChar)
    else firstNumericRun cs

/-- Value of a digit string read in base ten. -/
def digitsVal (ds : List Char) : Nat :=
  ds.foldl (fun n c => 10 * n + (c.toNat - Char.toNat '0')) 0

/-- JS parseFloat applied to a match of /[\d.]+/ : it reads digits, an
optional dot, then more digits, and stops at anything else; none models
the NaN it returns when no leading numeric prefix exists (for example on
"." or "..5"). -/
def parseFloatRun (cs : List Char) : Option ℚ :=
  let intPart := cs.takeWhile Char.isDigit
  let rest := cs.dropWhile Char.isDigit
  match rest with
  | '.' :: rest2 =>
    let fracPart := rest2.takeWhile Char.isDigit
    if intPart.isEmpty && fracPart.isEmpty then none
    else some ((digitsVal intPart : ℚ) +
      (digitsVal fracPart : ℚ) / (10 : ℚ) ^ fracPart.length)
  | _ => if intPart.isEmpty then none else some ((digitsVal intPart : ℚ))

/-- JS Math.round on a finite number: round half toward positive infinity. -/
def jsRound (q : ℚ) : ℤ := ⌊q + 1 / 2⌋

/-- parsePrice (src/scraper.js lines 67-70); none models a NaN result,
which the JS function produces when the first [\d.]+ match exists but
parseFloat cannot read a number from it. -/
def parsePrice (raw : String) : Option ℤ :=
  match firstNumericRun (stripCommas raw).toList with
  | none => some 0
  | some run => (parseFloatRun run).map jsRound

/-- COLOR_HEX_MAP (src/scraper.js lines 73-79). -/
def COLOR_HEX_MAP : List (String × String) :=
  [("Black", "#2C2C2C"), ("Gold", "#D4AF37"), ("Silver", "#C0C0C0"),
   ("Tortoise", "#5C4033"), ("Blue", "#1E3A8A")]

/-- The lookup COLOR_HEX_MAP[color] with the || fallback of line 245. -/
def colorHex (c : String) : String :=
  ((COLOR_HEX_MAP.find? (fun p => p.1 == c)).map Prod.snd).getD "#2C2C2C"

/-- A raw item bundle, as returned by the page.evaluate block of
scrapeConfig (src/scraper.js lines 228-234). -/
structure RawItem where
  rawName : String
  rawPrice : String
  rawColor : String
  imageUrl : String
  productUrl : String
deriving DecidableEq, Repr

/-- The per-field CSS selector block of a scraper config (src/scraper.js
lines 97-105).  The selectors are consumed only by the external DOM
evaluation, which the fetch oracle models, but they are part of the data
model. -/
structure Selectors where
  productItem : String
  name : String
  price : String
  color : String
  imageUrl : String
  productLink : String
  description : String
deriving DecidableEq, Repr

/-- The optional static overrides block of a config (lines 107-110). -/
structure Overrides where
  material : String
  weight : Nat
deriving DecidableEq, Repr

/-- One entry of SCRAPER_CONFIGS: a site descriptor (src/scraper.js
lines 85-191). -/
structure Config where
  brand : String
  enabled : Bool
  urls : List String
  selectors : Selectors
  overrides : Option Overrides
deriving DecidableEq, Repr

/-- The expression config.overrides?.material || "Unknown" of line 261:
an absent overrides object or a falsy (empty) material yields "Unknown". -/
def materialOf (cfg : Config) : String :=
  match cfg.overrides with
  | some o => if o.material = "" then "Unknown" else o.material
  | none => "Unknown"

/-- The expression config.overrides?.weight || 0 of line 262 (a weight of
0 is falsy, and || then also yields 0). -/
def weightOf (cfg : Config) : Nat :=
  match cfg.overrides with
  | some o => o.weight
  | none => 0

/-- The image-URL absolutization of lines 248-249: a protocol-relative
URL gets the https: prefix; anything else, the empty string included,
passes through. -/
def resolveImageUrl (raw : String) : String :=
  if raw ≠ "" ∧ listHasPre "//".toList raw.toList then "https:" ++ raw else raw

/-- A persisted product record (src/scraper.js lines 251-265).  price is
the field after the price || 0 guard of line 257, so NaN has already been
replaced by 0 there. -/
structure Product where
  id : Nat
  brand : String
  name : String
  type : String
  color : String
  price : ℤ
  shape : String
  imageColor : String
  imageUrl : String
  material : String
  weight : Nat
  sourceUrl : String
  scrapedAt : String
  manual : Bool
deriving DecidableEq, Repr

/-- Construction of one product record from a raw item bundle
(src/scraper.js lines 241-265).  now stands for the
new Date().toISOString() capture timestamp; a scraped record carries
manual = false, the JS object having no manual key, so that
p.manual === true is false for it. -/
def buildProduct (cfg : Config) (url now : String) (pid : Nat) (item : RawItem) :
    Product :=
  let color := if item.rawColor ≠ "" then normalizeColor item.rawColor else "Black"
  { id := pid
    brand := cfg.brand
    name := item.rawName
    type := detectType item.rawName "" url
    color := color
    price := (parsePrice item.rawPrice).getD 0
    shape := detectShape item.rawName ""
    imageColor := colorHex color
    imageUrl := resolveImageUrl item.imageUrl
    material := materialOf cfg
    weight := weightOf cfg
    sourceUrl := if item.productUrl ≠ "" then item.productUrl else url
    scrapedAt := now
    manual := false }

/-- The item loop of scrapeConfig (lines 238-268): items with an empty
raw name are skipped, every kept item takes the current counter value as
id and increments it.  Returns the produced records and the final
counter. -/
def processItems (cfg : Config) (url now : String) :
    List RawItem → Nat → List Product × Nat
  | [], n => ([], n)
  | item :: rest, n =>
    if item.rawName = "" then processItems cfg url now rest n
    else
      let r := processItems cfg url now rest (n + 1)
      (buildProduct cfg url now n item :: r.1, r.2)

/-- A fetch oracle models the external browser driver: for a listing URL
it yields none when navigation, rendering or extraction throws or times
out (the catch path of lines 271-272), and the raw item bundles the
page.evaluate of lines 214-236 returns otherwise. -/
def FetchOracle : Type := String → Option (List RawItem)

/-- The URL loop of scrapeConfig (lines 200-276): a failed page
contributes no records and does not advance the id counter; a successful
page contributes its processed items.  Returns the accumulated products
and the final counter. -/
def scrapeUrls (fetch : FetchOracle) (cfg : Config) (now : String) :
    List String → Nat → List Product × Nat
  | [], n => ([], n)
  | url :: rest, n =>
    match fetch url with
    | none => scrapeUrls fetch cfg now rest n
    | some items =>
      let r := processItems cfg url now items n
      let r2 := scrapeUrls fetch cfg now rest r.2
      (r.1 ++ r2.1, r2.2)

/-- scrapeConfig (src/scraper.js lines 196-279): the records produced for
one site descriptor starting at a given id counter. -/
def scrapeConfig (fetch : FetchOracle) (cfg : Config) (now : String)
    (startId : Nat) : List Product :=
  (scrapeUrls fetch cfg now cfg.urls startId).1

/-- One page-resource event of the crawl: browser.newPage acquires,
page.close releases. -/
inductive PageEvent where
  | acquired (url : String)
  | released (url : String)
deriving DecidableEq, Repr

/-- The page-resource trace of one URL iteration of scrapeConfig: the
page is acquired before the try block (line 202) and released in the
finally block (line 274) on the success path and on the catch path
alike. -/
def pageTraceStep (fetch : FetchOracle) (u : String) : List PageEvent :=
  match fetch u with
  | none => [PageEvent.acquired u, PageEvent.released u]
  | some _ => [PageEvent.acquired u, PageEvent.released u]

/-- The page-resource trace of the whole URL loop of scrapeConfig. -/
def pageTrace (fetch : FetchOracle) : List String → List PageEvent
  | [] => []
  | u :: rest => pageTraceStep fetch u ++ pageTrace fetch rest

/-- Recognizer for acquisition events. -/
def isAcquired : PageEvent → Bool
  | PageEvent.acquired _ => true
  | PageEvent.released _ => false

/-- Recognizer for release events. -/
def isReleased : PageEvent → Bool
  | PageEvent.acquired _ => false
  | PageEvent.released _ => true

/-- The config loop of runScraper (lines 302-311): disabled configs are
skipped without touching the counter; an enabled config consumes its
record count plus the fixed gap of 10. -/
def runConfigs (fetch : FetchOracle) (now : String) :
    List Config → Nat → List Product
  | [], _ => []
  | cfg :: rest, n =>
    if cfg.enabled then
      let ps := scrapeConfig fetch cfg now n
      ps ++ runConfigs fetch now rest (n + ps.length + 10)
    else runConfigs fetch now rest n

/-- The three outcomes of reading the persisted store file: the file does
not exist, it exists but JSON.parse throws, or it parses to a record
list. -/
def StoreRead : Type := Option (Option (List Product))

/-- The store-read prologue of runScraper (lines 289-296): a missing or
unparsable store yields no existing records, a parsed one is filtered to
the records with manual === true. -/
def existingManual (store : StoreRead) : List Product :=
  match store with
  | none => []
  | some none => []
  | some (some raw) => raw.filter (fun p => p.manual)

/-- runScraper (src/scraper.js lines 285-321): keeps the manual records
of the old store, appends all freshly scraped records with the counter
starting at 1000, writes the concatenation back and returns it.  The
returned list is also exactly the content written to the store file. -/
def runScraper (fetch : FetchOracle) (now : String) (cfgs : List Config)
    (store : StoreRead) : List Product :=
  existingManual store ++ runConfigs fetch now cfgs 1000

/-- loadCachedProducts (src/scraper.js lines 326-333): the empty list
when the file is absent (existsSync false) or JSON.parse throws, the
parsed catalog otherwise. -/
def loadCachedProducts (store : StoreRead) : List Product :=
  match store with
  | none => []
  | some none => []
  | some (some catalog) => catalog

/-- The concrete SCRAPER_CONFIGS list of src/scraper.js lines 85-191. -/
def SCRAPER_CONFIGS : List Config :=
  [{ brand := "ic! berlin"
     enabled := true
     urls := ["https://www.ic-berlin.de/en/eyewear/spectacle-frames/",
              "https://www.ic-berlin.de/en/eyewear/sunglasses/"]
     selectors :=
       { productItem := ".product-item", name := ".product-name",
         price := ".price", color := ".color-label",
         imageUrl := "img.product-image", productLink := "a.product-link",
         description := "" }
     overrides := some { material := "Stainless Steel", weight := 14 } },
   { brand := "Orgreen"
     enabled := true
     urls := ["https://www.orgreen.com/collections/optical-frames",
              "https://www.orgreen.com/collections/sunglasses"]
     selectors :=
       { productItem := ".product-card", name := ".product-card__title",
         price := ".price__regular .price-item", color := ".color-name",
         imageUrl := ".product-card__image img",
         productLink := "a.product-card__link", description := "" }
     overrides := some { material := "Titanium", weight := 15 } },
   { brand := "Tom Ford"
     enabled := true
     urls := ["https://www.tomford.com/eyewear/optical-frames/",
              "https://www.tomford.com/eyewear/sunglasses/"]
     selectors :=
       { productItem := ".product-tile", name := ".product-name",
         price := ".price-sales", color := ".color-description",
         imageUrl := ".product-image img",
         productLink := "a.product-tile-link", description := "" }
     overrides := some { material := "Acetate", weight := 28 } },
   { brand := "Talla"
     enabled := true
     urls := ["https://www.tallaeyewear.com/collections/optical",
              "https://www.tallaeyewear.com/collections/sun"]
     selectors :=
       { productItem := ".product-item", name := ".product-item__title",
         price := ".price", color := ".product-item__variant",
         imageUrl := ".product-item__image img",
         productLink := "a.product-item__link", description := "" }
     overrides := some { material := "Titanium", weight := 18 } }]

/-! ### Concrete fixtures used by counterexamples and witnesses -/

/-- A fetch oracle on which every page fails. -/
def exFetchNone : FetchOracle := fun _ => none

/-- A fetch oracle yielding one raw item on every page. -/
def exFetchOne : FetchOracle :=
  fun _ => some [{ rawName := "X", rawPrice := "", rawColor := "",
                   imageUrl := "", productUrl := "" }]

/-- An empty selector block for fixture configs. -/
def exSel : Selectors :=
  { productItem := "", name := "", price := "", color := "",
    imageUrl := "", productLink := "", description := "" }

/-- An enabled one-page fixture config. -/
def exCfgOne : Config :=
  { brand := "B", enabled := true, urls := ["u"], selectors := exSel,
    overrides := none }

/-- A disabled fixture config. -/
def exDisabled : Config :=
  { brand := "Off", enabled := false, urls := ["v"], selectors := exSel,
    overrides := none }

/-- A manually curated record whose id is exactly the scraped-id offset
1000. -/
def exManual1000 : Product :=
  { id := 1000, brand := "M", name := "Hand-made", type := "Optical",
    color := "Black", price := 0, shape := "rect", imageColor := "#2C2C2C",
    imageUrl := "", material := "Unknown", weight := 0, sourceUrl := "",
    scrapedAt := "t0", manual := true }

/-- A manually curated record whose id keeps below the scraped-id
offset. -/
def exManual900 : Product :=
  { id := 900, brand := "M", name := "Hand-made", type := "Optical",
    color := "Black", price := 0, shape := "rect", imageColor := "#2C2C2C",
    imageUrl := "", material := "Unknown", weight := 0, sourceUrl := "",
    scrapedAt := "t0", manual := true }

/-- A raw item whose image URL is a root-relative path. -/
def exRelItem : RawItem :=
  { rawName := "Frame A", rawPrice := "", rawColor := "",
    imageUrl := "/images/frame.jpg", productUrl := "" }

/-! ### Lemmas about the substring search -/

lemma listHasPre_nil_pat (l : List Char) : listHasPre [] l = true := by
  cases l <;> rfl

lemma listFind_nil_pat (l : List Char) : listFind [] l = true := by
  cases l with
  | nil => rfl
  | cons c cs => simp [listFind, listHasPre_nil_pat]

lemma eq_nil_of_listFind_nil {p : List Char} (h : listFind p [] = true) :
    p = [] := by
  cases p with
  | nil => rfl
  | cons d p' => simp [listFind, listHasPre] at h

lemma listFind_of_listHasPre {p l : List Char} (h : listHasPre p l = true) :
    listFind p l = true := by
  cases l with
  | nil => simpa [listFind] using h
  | cons c cs => simp [listFind, h]

/-- A pattern avoiding the separator character that occurs at the start of
the separated concatenation occurs at the start of the left part. -/
lemma listHasPre_through_sep {p x y : List Char} {c : Char} (hc : c ∉ p)
    (h : listHasPre p (x ++ c :: y) = true) : listHasPre p x = true := by
  induction p generalizing x with
  | nil => exact listHasPre_nil_pat x
  | cons d p' ih =>
    cases x with
    | nil =>
      simp only [List.nil_append, listHasPre, Bool.and_eq_true, beq_iff_eq] at h
      exact absurd (by rw [h.1]; exact List.mem_cons_self c p') hc
    | cons e x' =>
      simp only [List.cons_append, listHasPre, Bool.and_eq_true, beq_iff_eq] at h ⊢
      exact ⟨h.1, ih (fun hm => hc (List.mem_cons_of_mem d hm)) h.2⟩

/-- A pattern avoiding the separator character that occurs in the
separated concatenation occurs in one of the parts. -/
lemma listFind_through_sep {p x y : List Char} {c : Char} (hc : c ∉ p)
    (h : listFind p (x ++ c :: y) = true) :
    listFind p x = true ∨ listFind p y = true := by
  induction x with
  | nil =>
    simp only [List.nil_append] at h
    rw [listFind, Bool.or_eq_true] at h
    rcases h with h1 | h2
    · left
      exact listFind_of_listHasPre
        (listHasPre_through_sep (x := []) hc (by simpa using h1))
    · right; exact h2
  | cons e x' ih =>
    rw [List.cons_append, listFind, Bool.or_eq_true] at h
    rcases h with h1 | h2
    · left
      exact listFind_of_listHasPre
        (listHasPre_through_sep (x := e :: x') hc (by simpa using h1))
    · rcases ih h2 with h3 | h3
      · left; rw [listFind, Bool.or_eq_true]; right; exact h3
      · right; exact h3

lemma listHasPre_append {p x : List Char} (z : List Char)
    (h : listHasPre p x = true) : listHasPre p (x ++ z) = true := by
  induction p generalizing x with
  | nil => exact listHasPre_nil_pat _
  | cons d p' ih =>
    cases x with
    | nil => simp [listHasPre] at h
    | cons e x' =>
      simp only [List.cons_append, listHasPre, Bool.and_eq_true, beq_iff_eq] at h ⊢
      exact ⟨h.1, ih h.2⟩

lemma listFind_append_left {p x : List Char} (z : List Char)
    (h : listFind p x = true) : listFind p (x ++ z) = true := by
  induction x with
  | nil =>
    have hp : p = [] := eq_nil_of_listFind_nil h
    subst hp
    simpa using listFind_nil_pat z
  | cons e x' ih =>
    rw [listFind, Bool.or_eq_true] at h
    rw [List.cons_append, listFind, Bool.or_eq_true]
    rcases h with h1 | h2
    · left; exact listHasPre_append z h1
    · right; exact ih h2

lemma listFind_append_right {p z : List Char} (x : List Char)
    (h : listFind p z = true) : listFind p (x ++ z) = true := by
  induction x with
  | nil => simpa using h
  | cons e x' ih =>
    rw [List.cons_append, listFind, Bool.or_eq_true]
    right; exact ih

lemma toLower_space : Char.toLower ' ' = ' ' := by decide

/-- The concatenation name + " " + "" + " " + category built by detectType
lower-cases pointwise around the two separator spaces. -/
lemma jsToLower_concat_toList (a b : String) :
    (jsToLower (a ++ " " ++ "" ++ " " ++ b)).toList
      = (jsToLower a).toList ++ ' ' :: ' ' :: (jsToLower b).toList := by
  simp [jsToLower, String.toList, String.data_append, toLower_space]

/-- A pattern with no space occurs in a two-space-separated concatenation
exactly when it occurs in one of the parts. -/
lemma listFind_sep2_iff (p A B : List Char) (hp : p ≠ [])
    (hsp : (' ' : Char) ∉ p) :
    listFind p (A ++ ' ' :: ' ' :: B) = true
      ↔ (listFind p A = true ∨ listFind p B = true) := by
  constructor
  · intro h
    rcases listFind_through_sep hsp h with h1 | h1
    · exact Or.inl h1
    · rcases listFind_through_sep (x := []) hsp (by simpa using h1) with h2 | h2
      · exact absurd (eq_nil_of_listFind_nil h2) hp
      · exact Or.inr h2
  · intro h
    rcases h with h1 | h1
    · exact listFind_append_left _ h1
    · have h2 : listFind p ((A ++ [' ', ' ']) ++ B) = true :=
        listFind_append_right _ h1
      simpa using h2

/-- A keyword with no space that occurs in the lowered two-part text of
detectType occurs in the lowered name or in the lowered category, and
conversely. -/
lemma strIncludes_concat_split (a b k : String) (hk : k.toList ≠ [])
    (hsp : (' ' : Char) ∉ k.toList) :
    strIncludes (jsToLower (a ++ " " ++ "" ++ " " ++ b)) k
      = (strIncludes (jsToLower a) k || strIncludes (jsToLower b) k) := by
  unfold strIncludes
  rw [jsToLower_concat_toList]
  have hiff := listFind_sep2_iff k.toList (jsToLower a).toList
    (jsToLower b).toList hk hsp
  rcases hA : listFind k.toList (jsToLower a).toList with _ | _
  · rcases hB : listFind k.toList (jsToLower b).toList with _ | _
    · have hL : listFind k.toList
          ((jsToLower a).toList ++ ' ' :: ' ' :: (jsToLower b).toList) = false := by
        rcases hcon : listFind k.toList
            ((jsToLower a).toList ++ ' ' :: ' ' :: (jsToLower b).toList) with _ | _
        · rfl
        · rcases hiff.mp hcon with h' | h'
          · rw [hA] at h'; cases h'
          · rw [hB] at h'; cases h'
      rw [hL]; rfl
    · rw [hiff.mpr (Or.inr hB)]; rfl
  · rw [hiff.mpr (Or.inl hA)]; rfl

lemma testAny_split (keys : List String) (t a b : String)
    (h : ∀ k ∈ keys, strIncludes t k = (strIncludes a k || strIncludes b k)) :
    testAny keys t = (testAny keys a || testAny keys b) := by
  induction keys with
  | nil => rfl
  | cons k ks ih =>
    have iht := ih (fun k' hk' => h k' (List.mem_cons_of_mem k hk'))
    simp only [testAny, List.any_cons] at iht ⊢
    rw [h k (List.mem_cons_self k ks), iht]
    cases hx : strIncludes a k <;> cases hy : strIncludes b k <;>
      cases hu : List.any ks (fun k => strIncludes a k) <;>
      cases hv : List.any ks (fun k => strIncludes b k) <;> rfl

/-! ### The first-match characterization of the color table -/

lemma colorLookup_find (lower : String) (l : List (String × String)) :
    colorLookup lower l
      = (((l.find? fun p => strIncludes lower p.1).map Prod.snd).getD "Black") := by
  induction l with
  | nil => rfl
  | cons kv rest ih =>
    obtain ⟨k, v⟩ := kv
    rcases h : strIncludes lower k with _ | _
    · rw [colorLookup, List.find?_cons_of_neg _ (by simpa using h)]
      simpa [h] using ih
    · rw [colorLookup, List.find?_cons_of_pos _ (by simpa using h)]
      simp [h]

/-! ### Identifier allocation along the crawl loop -/

lemma buildProduct_manual (cfg : Config) (url now : String) (pid : Nat)
    (item : RawItem) : (buildProduct cfg url now pid item).manual = false := rfl

lemma buildProduct_id (cfg : Config) (url now : String) (pid : Nat)
    (item : RawItem) : (buildProduct cfg url now pid item).id = pid := rfl

lemma processItems_snd (cfg : Config) (url now : String) :
    ∀ (items : List RawItem) (n : Nat),
      (processItems cfg url now items n).2
        = n + (processItems cfg url now items n).1.length := by
  intro items
  induction items with
  | nil => intro n; simp [processItems]
  | cons item rest ih =>
    intro n
    by_cases h : item.rawName = ""
    · simp [processItems, h, ih n]
    · simp only [processItems, if_neg h, List.length_cons, ih (n + 1)]
      omega

lemma processItems_bounds (cfg : Config) (url now : String) :
    ∀ (items : List RawItem) (n : Nat),
      ∀ p ∈ (processItems cfg url now items n).1,
        n ≤ p.id ∧ p.id < (processItems cfg url now items n).2 := by
  intro items
  induction items with
  | nil => intro n p hp; simp [processItems] at hp
  | cons item rest ih =>
    intro n p hp
    by_cases h : item.rawName = ""
    · simp only [processItems, if_pos h] at hp ⊢
      exact ih n p hp
    · simp only [processItems, if_neg h, List.mem_cons] at hp ⊢
      have hs := processItems_snd cfg url now rest (n + 1)
      rcases hp with rfl | hmem
      · refine ⟨Nat.le_refl _, ?_⟩
        rw [buildProduct_id]
        omega
      · have hb := ih (n + 1) p hmem
        exact ⟨by omega, hb.2⟩

lemma processItems_nodup (cfg : Config) (url now : String) :
    ∀ (items : List RawItem) (n : Nat),
      ((processItems cfg url now items n).1.map (fun p => p.id)).Nodup := by
  intro items
  induction items with
  | nil => intro n; simp [processItems]
  | cons item rest ih =>
    intro n
    by_cases h : item.rawName = ""
    · simp only [processItems, if_pos h]; exact ih n
    · simp only [processItems, if_neg h, List.map_cons, List.nodup_cons]
      refine ⟨?_, ih (n + 1)⟩
      intro hmem
      rcases List.mem_map.mp hmem with ⟨q, hq, hqid⟩
      have hb := (processItems_bounds cfg url now rest (n + 1) q hq).1
      rw [buildProduct_id] at hqid
      omega

lemma processItems_manual (cfg : Config) (url now : String) :
    ∀ (items : List RawItem) (n : Nat),
      ∀ p ∈ (processItems cfg url now items n).1, p.manual = false := by
  intro items
  induction items with
  | nil => intro n p hp; simp [processItems] at hp
  | cons item rest ih =>
    intro n p hp
    by_cases h : item.rawName = ""
    · simp only [processItems, if_pos h] at hp
      exact ih n p hp
    · simp only [processItems, if_neg h, List.mem_cons] at hp
      rcases hp with rfl | hmem
      · exact buildProduct_manual cfg url now n item
      · exact ih (n + 1) p hmem

lemma scrapeUrls_snd (fetch : FetchOracle) (cfg : Config) (now : String) :
    ∀ (urls : List String) (n : Nat),
      (scrapeUrls fetch cfg now urls n).2
        = n + (scrapeUrls fetch cfg now urls n).1.length := by
  intro urls
  induction urls with
  | nil => intro n; simp [scrapeUrls]
  | cons url rest ih =>
    intro n
    rcases hf : fetch url with _ | items
    · simp [scrapeUrls, hf, ih n]
    · simp only [scrapeUrls, hf, List.length_append]
      rw [ih ((processItems cfg url now items n).2),
        processItems_snd cfg url now items n]
      omega

lemma scrapeUrls_bounds (fetch : FetchOracle) (cfg : Config) (now : String) :
    ∀ (urls : List String) (n : Nat),
      ∀ p ∈ (scrapeUrls fetch cfg now urls n).1,
        n ≤ p.id ∧ p.id < (scrapeUrls fetch cfg now urls n).2 := by
  intro urls
  induction urls with
  | nil => intro n p hp; simp [scrapeUrls] at hp
  | cons url rest ih =>
    intro n p hp
    rcases hf : fetch url with _ | items
    · simp only [scrapeUrls, hf] at hp ⊢
      exact ih n p hp
    · simp only [scrapeUrls, hf, List.mem_append] at hp ⊢
      have h1 := processItems_snd cfg url now items n
      have h2 := scrapeUrls_snd fetch cfg now rest
        ((processItems cfg url now items n).2)
      rcases hp with hmem | hmem
      · have hb := processItems_bounds cfg url now items n p hmem
        exact ⟨hb.1, by omega⟩
      · have hb := ih ((processItems cfg url now items n).2) p hmem
        exact ⟨by omega, hb.2⟩

lemma scrapeUrls_nodup (fetch : FetchOracle) (cfg : Config) (now : String) :
    ∀ (urls : List String) (n : Nat),
      ((scrapeUrls fetch cfg now urls n).1.map (fun p => p.id)).Nodup := by
  intro urls
  induction urls with
  | nil => intro n; simp [scrapeUrls]
  | cons url rest ih =>
    intro n
    rcases hf : fetch url with _ | items
    · simp only [scrapeUrls, hf]; exact ih n
    · simp only [scrapeUrls, hf, List.map_append]
      refine List.Nodup.append (processItems_nodup cfg url now items n) (ih _) ?_
      intro a ha hb
      rcases List.mem_map.mp ha with ⟨q, hq, rfl⟩
      rcases List.mem_map.mp hb with ⟨q', hq', hq'id⟩
      have h1 := (processItems_bounds cfg url now items n q hq).2
      have h2 := (scrapeUrls_bounds fetch cfg now rest
        ((processItems cfg url now items n).2) q' hq').1
      omega

lemma scrapeUrls_manual (fetch : FetchOracle) (cfg : Config) (now : String) :
    ∀ (urls : List String) (n : Nat),
      ∀ p ∈ (scrapeUrls fetch cfg now urls n).1, p.manual = false := by
  intro urls
  induction urls with
  | nil => intro n p hp; simp [scrapeUrls] at hp
  | cons url rest ih =>
    intro n p hp
    rcases hf : fetch url with _ | items
    · simp only [scrapeUrls, hf] at hp
      exact ih n p hp
    · simp only [scrapeUrls, hf, List.mem_append] at hp
      rcases hp with hmem | hmem
      · exact processItems_manual cfg url now items n p hmem
      · exact ih ((processItems cfg url now items n).2) p hmem

lemma runConfigs_cons_enabled (fetch : FetchOracle) (now : String)
    (cfg : Config) (cfgs : List Config) (n : Nat) (he : cfg.enabled = true) :
    runConfigs fetch now (cfg :: cfgs) n
      = scrapeConfig fetch cfg now n
        ++ runConfigs fetch now cfgs
            (n + (scrapeConfig fetch cfg now n).length + 10) := by
  simp [runConfigs, he]

lemma runConfigs_cons_disabled (fetch : FetchOracle) (now : String)
    (cfg : Config) (cfgs : List Config) (n : Nat) (he : cfg.enabled = false) :
    runConfigs fetch now (cfg :: cfgs) n = runConfigs fetch now cfgs n := by
  simp [runConfigs, he]

lemma runConfigs_lb (fetch : FetchOracle) (now : String) :
    ∀ (cfgs : List Config) (n : Nat),
      ∀ p ∈ runConfigs fetch now cfgs n, n ≤ p.id := by
  intro cfgs
  induction cfgs with
  | nil => intro n p hp; simp [runConfigs] at hp
  | cons cfg rest ih =>
    intro n p hp
    rcases he : cfg.enabled with _ | _
    · rw [runConfigs_cons_disabled fetch now cfg rest n he] at hp
      exact ih n p hp
    · rw [runConfigs_cons_enabled fetch now cfg rest n he] at hp
      rcases List.mem_append.mp hp with hmem | hmem
      · exact (scrapeUrls_bounds fetch cfg now cfg.urls n p hmem).1
      · have := ih _ p hmem
        omega

lemma runConfigs_nodup (fetch : FetchOracle) (now : String) :
    ∀ (cfgs : List Config) (n : Nat),
      ((runConfigs fetch now cfgs n).map (fun p => p.id)).Nodup := by
  intro cfgs
  induction cfgs with
  | nil => intro n; simp [runConfigs]
  | cons cfg rest ih =>
    intro n
    rcases he : cfg.enabled with _ | _
    · rw [runConfigs_cons_disabled fetch now cfg rest n he]
      exact ih n
    · rw [runConfigs_cons_enabled fetch now cfg rest n he, List.map_append]
      refine List.Nodup.append (scrapeUrls_nodup fetch cfg now cfg.urls n) (ih _) ?_
      intro a ha hb
      rcases List.mem_map.mp ha with ⟨q, hq, rfl⟩
      rcases List.mem_map.mp hb with ⟨q', hq', hq'id⟩
      have h1 := (scrapeUrls_bounds fetch cfg now cfg.urls n q hq).2
      have h2 := scrapeUrls_snd fetch cfg now cfg.urls n
      have h3 := runConfigs_lb fetch now rest
        (n + (scrapeConfig fetch cfg now n).length + 10) q' hq'
      have h4 : (scrapeConfig fetch cfg now n).length
          = (scrapeUrls fetch cfg now cfg.urls n).1.length := rfl
      omega

lemma runConfigs_manual (fetch : FetchOracle) (now : String) :
    ∀ (cfgs : List Config) (n : Nat),
      ∀ p ∈ runConfigs fetch now cfgs n, p.manual = false := by
  intro cfgs
  induction cfgs with
  | nil => intro n p hp; simp [runConfigs] at hp
  | cons cfg rest ih =>
    intro n p hp
    rcases he : cfg.enabled with _ | _
    · rw [runConfigs_cons_disabled fetch now cfg rest n he] at hp
      exact ih n p hp
    · rw [runConfigs_cons_enabled fetch now cfg rest n he] at hp
      rcases List.mem_append.mp hp with hmem | hmem
      · exact scrapeUrls_manual fetch cfg now cfg.urls n p hmem
      · exact ih _ p hmem

/-! ### Filter facts for the reconciliation step -/

lemma filter_manual_idem (l : List Product) :
    (l.filter (fun p => p.manual)).filter (fun p => p.manual)
      = l.filter (fun p => p.manual) := by
  apply List.filter_eq_self.mpr
  intro a ha
  exact (List.mem_filter.mp ha).2

lemma filter_manual_scraped_nil (fetch : FetchOracle) (now : String)
    (cfgs : List Config) (n : Nat) :
    (runConfigs fetch now cfgs n).filter (fun p => p.manual) = [] := by
  apply List.filter_eq_nil_iff.mpr
  intro a ha
  simp [runConfigs_manual fetch now cfgs n a ha]

/-! ### Loop congruences used by the frame and error-containment claims -/

lemma runConfigs_disabled_skipped (fetch : FetchOracle) (now : String)
    (d : Config) (hd : d.enabled = false) :
    ∀ (cfgs₁ cfgs₂ : List Config) (n : Nat),
      runConfigs fetch now (cfgs₁ ++ d :: cfgs₂) n
        = runConfigs fetch now (cfgs₁ ++ cfgs₂) n := by
  intro cfgs₁
  induction cfgs₁ with
  | nil =>
    intro cfgs₂ n
    rw [List.nil_append, List.nil_append,
      runConfigs_cons_disabled fetch now d cfgs₂ n hd]
  | cons c rest ih =>
    intro cfgs₂ n
    rw [List.cons_append, List.cons_append]
    rcases hc : c.enabled with _ | _
    · rw [runConfigs_cons_disabled fetch now c (rest ++ d :: cfgs₂) n hc,
        runConfigs_cons_disabled fetch now c (rest ++ cfgs₂) n hc]
      exact ih cfgs₂ n
    · rw [runConfigs_cons_enabled fetch now c (rest ++ d :: cfgs₂) n hc,
        runConfigs_cons_enabled fetch now c (rest ++ cfgs₂) n hc, ih]

lemma scrapeUrls_page_failure (fetch : FetchOracle) (cfg : Config)
    (now u : String) (hu : fetch u = none) :
    ∀ (us₁ us₂ : List String) (n : Nat),
      scrapeUrls fetch cfg now (us₁ ++ u :: us₂) n
        = scrapeUrls fetch cfg now (us₁ ++ us₂) n := by
  intro us₁
  induction us₁ with
  | nil =>
    intro us₂ n
    simp [scrapeUrls, hu]
  | cons w rest ih =>
    intro us₂ n
    rw [List.cons_append, List.cons_append]
    rcases hw : fetch w with _ | items
    · simp only [scrapeUrls, hw]
      exact ih us₂ n
    · simp only [scrapeUrls, hw]
      rw [ih]

lemma pageTrace_balanced (fetch : FetchOracle) :
    ∀ us : List String,
      (pageTrace fetch us).countP isAcquired
        = (pageTrace fetch us).countP isReleased := by
  intro us
  induction us with
  | nil => rfl
  | cons u rest ih =>
    simp only [pageTrace, pageTraceStep, List.countP_append]
    rcases fetch u with _ | items <;>
      simp [List.countP_cons, isAcquired, isReleased, ih]

lemma processItems_config_update (cfg : Config) (X : List String)
    (url now : String) :
    ∀ (items : List RawItem) (n : Nat),
      processItems { cfg with urls := X } url now items n
        = processItems cfg url now items n := by
  intro items
  induction items with
  | nil => intro n; rfl
  | cons item rest ih =>
    intro n
    by_cases h : item.rawName = ""
    · simp only [processItems, if_pos h]
      exact ih n
    · simp only [processItems, if_neg h, ih (n + 1)]
      rfl

lemma scrapeUrls_config_update (fetch : FetchOracle) (cfg : Config)
    (X : List String) (now : String) :
    ∀ (us : List String) (n : Nat),
      scrapeUrls fetch { cfg with urls := X } now us n
        = scrapeUrls fetch cfg now us n := by
  intro us
  induction us with
  | nil => intro n; rfl
  | cons url rest ih =>
    intro n
    rcases hf : fetch url with _ | items
    · simp only [scrapeUrls, hf]
      exact ih n
    · simp only [scrapeUrls, hf, processItems_config_update, ih]

lemma runConfigs_cons_congr (fetch : FetchOracle) (now : String)
    (c₁ c₂ : Config)
    (hps : ∀ n, scrapeConfig fetch c₁ now n = scrapeConfig fetch c₂ now n)
    (hen : c₁.enabled = c₂.enabled) (cfgs : List Config) (n : Nat) :
    runConfigs fetch now (c₁ :: cfgs) n = runConfigs fetch now (c₂ :: cfgs) n := by
  simp only [runConfigs]
  rw [hen, hps n]

/-! ### Non-negativity of the parsed price -/

lemma parseFloatRun_nonneg (cs : List Char) (q : ℚ)
    (h : parseFloatRun cs = some q) : 0 ≤ q := by
  simp only [parseFloatRun] at h
  split at h
  · split at h
    · simp at h
    · have hq := Option.some.inj h
      rw [← hq]
      positivity
  · split at h
    · simp at h
    · have hq := Option.some.inj h
      rw [← hq]
      positivity

lemma jsRound_nonneg {q : ℚ} (h : 0 ≤ q) : 0 ≤ jsRound q := by
  unfold jsRound
  apply Int.floor_nonneg.mpr
  linarith

end Lumina

namespace Lumina

/-! ### The claims -/

/-- C1: over any initial persisted store, runScraper keeps every record
with manual = true unchanged in the merged output (and the rewritten
store, which by construction holds the same list), drops from both every
old record without manual = true that is not also among the freshly
scraped records, and the merged output is exactly the kept manual records
followed by the newly scraped records. -/
theorem claim_C1 (fetch : FetchOracle) (now : String) (cfgs : List Config)
    (old : List Product) :
    runScraper fetch now cfgs (some (some old))
        = old.filter (fun p => p.manual) ++ runConfigs fetch now cfgs 1000
    ∧ (∀ m ∈ old, m.manual = true →
        m ∈ runScraper fetch now cfgs (some (some old)))
    ∧ (∀ r ∈ old, r.manual = false →
        r ∉ runConfigs fetch now cfgs 1000 →
        r ∉ runScraper fetch now cfgs (some (some old))) := by
  have hEq : runScraper fetch now cfgs (some (some old))
      = old.filter (fun p => p.manual) ++ runConfigs fetch now cfgs 1000 := rfl
  refine ⟨hEq, ?_, ?_⟩
  · intro m hm hman
    rw [hEq]
    exact List.mem_append_left _ (List.mem_filter.mpr ⟨hm, by simpa using hman⟩)
  · intro r hr hman hscr hmem
    rw [hEq] at hmem
    rcases List.mem_append.mp hmem with h | h
    · have h2 := (List.mem_filter.mp h).2
      simp only [hman] at h2
      cases h2
    · exact hscr h

/-- Witness for C1 at a one-record manual store and an empty config
list. -/
theorem claim_C1_witness :
    exManual1000 ∈ runScraper exFetchNone "t" [] (some (some [exManual1000])) :=
  (claim_C1 exFetchNone "t" [] [exManual1000]).2.1 exManual1000
    (List.mem_singleton_self _) rfl

/-- C2 counterexample: a store whose manual record already carries id
1000 collides with the first scraped id, so the merged catalog has a
duplicate id. -/
theorem claim_C2_counterexample :
    ¬ ((runScraper exFetchOne "t1" [exCfgOne]
        (some (some [exManual1000]))).map (fun p => p.id)).Nodup := by
  have h : (runScraper exFetchOne "t1" [exCfgOne]
      (some (some [exManual1000]))).map (fun p => p.id) = [1000, 1000] := rfl
  rw [h]
  decide

/-- C2 (amended): scraped records always carry pairwise distinct ids, all
at least 1000; when additionally every manual record id of the old store
is below 1000 and the manual ids are pairwise distinct, the merged catalog
has no duplicate id, and the manual part of the store is reproduced
verbatim, so the precondition is maintained across repeated runs. -/
theorem claim_C2_amended (fetch : FetchOracle) (now : String)
    (cfgs : List Config) (old : List Product)
    (hnd : ((old.filter (fun p => p.manual)).map (fun p => p.id)).Nodup)
    (hlt : ∀ p ∈ old.filter (fun p => p.manual), p.id < 1000) :
    ((runScraper fetch now cfgs (some (some old))).map (fun p => p.id)).Nodup
    ∧ (runScraper fetch now cfgs (some (some old))).filter (fun p => p.manual)
        = old.filter (fun p => p.manual)
    ∧ ((runConfigs fetch now cfgs 1000).map (fun p => p.id)).Nodup
    ∧ (∀ p ∈ runConfigs fetch now cfgs 1000, 1000 ≤ p.id) := by
  have hEq : runScraper fetch now cfgs (some (some old))
      = old.filter (fun p => p.manual) ++ runConfigs fetch now cfgs 1000 := rfl
  refine ⟨?_, ?_, runConfigs_nodup fetch now cfgs 1000,
    runConfigs_lb fetch now cfgs 1000⟩
  · rw [hEq, List.map_append]
    refine List.Nodup.append hnd (runConfigs_nodup fetch now cfgs 1000) ?_
    intro a ha hb
    rcases List.mem_map.mp ha with ⟨q, hq, rfl⟩
    rcases List.mem_map.mp hb with ⟨q', hq', hq'id⟩
    have h1 := hlt q hq
    have h2 := runConfigs_lb fetch now cfgs 1000 q' hq'
    omega
  · rw [hEq, List.filter_append, filter_manual_idem,
      filter_manual_scraped_nil, List.append_nil]

/-- Witness for C2 (amended) at a one-record manual store with id 900. -/
theorem claim_C2_amended_witness :
    ((runScraper exFetchNone "t" [] (some (some [exManual900]))).map
        (fun p => p.id)).Nodup
    ∧ (runScraper exFetchNone "t" [] (some (some [exManual900]))).filter
        (fun p => p.manual) = [exManual900].filter (fun p => p.manual)
    ∧ ((runConfigs exFetchNone "t" [] 1000).map (fun p => p.id)).Nodup
    ∧ (∀ p ∈ runConfigs exFetchNone "t" [] 1000, 1000 ≤ p.id) :=
  claim_C2_amended exFetchNone "t" [] [exManual900] (by decide) (by decide)

/-- C3 counterexample: on the input "." the regex matches the bare dot,
parseFloat returns NaN and Math.round propagates it, so parsePrice does
not return a non-negative integer (none models the NaN result). -/
theorem claim_C3_counterexample :
    parsePrice "." = none ∧ ¬ ∃ n : ℤ, parsePrice "." = some n ∧ 0 ≤ n := by
  refine ⟨rfl, ?_⟩
  rintro ⟨n, hn, -⟩
  rw [show parsePrice "." = none from rfl] at hn
  cases hn

/-- C3 (amended): whenever parsePrice returns a number at all it is a
non-negative integer; it returns 0 when the input holds no digit-or-dot
run; and the three documented examples hold.  The only non-number result
is the NaN produced when the first digits-and-dots match cannot be read
as a number (for example a bare "."). -/
theorem claim_C3_amended :
    (∀ (raw : String) (n : ℤ), parsePrice raw = some n → 0 ≤ n)
    ∧ (∀ raw : String,
        firstNumericRun (stripCommas raw).toList = none →
          parsePrice raw = some 0)
    ∧ parsePrice "1,299.50" = some 1300
    ∧ parsePrice "" = some 0
    ∧ parsePrice "Call for price" = some 0 := by
  refine ⟨?_, ?_, ?_, rfl, rfl⟩
  · intro raw n h
    unfold parsePrice at h
    split at h
    · cases h
      exact le_refl 0
    · rcases Option.map_eq_some'.mp h with ⟨q, hq, rfl⟩
      exact jsRound_nonneg (parseFloatRun_nonneg _ q hq)
  · intro raw h
    unfold parsePrice
    rw [h]
  · have h : parsePrice "1,299.50"
        = some (jsRound ((1299 : ℚ) + 50 / (10 : ℚ) ^ 2)) := rfl
    rw [h]
    norm_num [jsRound]

/-- Witness for C3 (amended) at the empty input. -/
theorem claim_C3_amended_witness :
    parsePrice "" = some 0 ∧ (0 : ℤ) ≤ 0 :=
  ⟨rfl, claim_C3_amended.1 "" 0 rfl⟩

/-- C4: normalizeColor lower-cases its input and returns the canonical
color of the first key of the ordered table COLOR_MAP contained in the
lowered input, Black when no key is contained; in particular
"Gunmetal Grey" maps to Silver.  As a Lean function it is total and
deterministic by construction. -/
theorem claim_C4 :
    (∀ raw : String,
      normalizeColor raw
        = (((COLOR_MAP.find? fun p => strIncludes (jsToLower raw) p.1).map
              Prod.snd).getD "Black"))
    ∧ normalizeColor "Gunmetal Grey" = "Silver" :=
  ⟨fun raw => colorLookup_find (jsToLower raw) COLOR_MAP, by decide⟩

/-- C5: the code rewrites protocol-relative image URLs to https:, but a
root-relative raw URL such as "/images/frame.jpg" passes through
unchanged and ends up in the record as a non-empty relative URL,
contradicting the stated always-absolute property (and the comment
"Make sure image URL is absolute" above the code). -/
theorem claim_C5_failing_input :
    resolveImageUrl "/images/frame.jpg" = "/images/frame.jpg"
    ∧ (buildProduct exCfgOne "u" "t" 0 exRelItem).imageUrl = "/images/frame.jpg"
    ∧ resolveImageUrl "//cdn.example.com/p.png" = "https://cdn.example.com/p.png" :=
  ⟨by decide, by decide, by decide⟩

/-- C6: starting from a manual-only store, running the scrape-and-merge
twice with the same fetch results leaves exactly the manual records
followed by the second run's scraped records; the first run's scraped
records are fully superseded and never duplicated. -/
theorem claim_C6 (fetch : FetchOracle) (now : String) (cfgs : List Config)
    (M : List Product) (hM : ∀ m ∈ M, m.manual = true) :
    runScraper fetch now cfgs
        (some (some (runScraper fetch now cfgs (some (some M)))))
      = M ++ runConfigs fetch now cfgs 1000 := by
  have hEq2 : ∀ l : List Product, runScraper fetch now cfgs (some (some l))
      = l.filter (fun p => p.manual) ++ runConfigs fetch now cfgs 1000 :=
    fun _ => rfl
  rw [hEq2, hEq2, List.filter_append, filter_manual_idem,
    filter_manual_scraped_nil, List.append_nil,
    List.filter_eq_self.mpr (by simpa using hM)]

/-- Witness for C6 at a one-record manual store. -/
theorem claim_C6_witness :
    runScraper exFetchNone "t" []
        (some (some (runScraper exFetchNone "t" [] (some (some [exManual1000])))))
      = [exManual1000] ++ runConfigs exFetchNone "t" [] 1000 :=
  claim_C6 exFetchNone "t" [] [exManual1000] (by decide)

/-- C7: a disabled site descriptor contributes zero records and consumes
no identifier range: the whole run over a config list containing it
equals the run over the list with it removed, and the skipped descriptor
passes every counter value through unchanged. -/
theorem claim_C7 (fetch : FetchOracle) (now : String)
    (cfgs₁ cfgs₂ : List Config) (d : Config) (hd : d.enabled = false)
    (store : StoreRead) :
    runScraper fetch now (cfgs₁ ++ d :: cfgs₂) store
      = runScraper fetch now (cfgs₁ ++ cfgs₂) store
    ∧ (∀ n, runConfigs fetch now (d :: cfgs₂) n
        = runConfigs fetch now cfgs₂ n) := by
  constructor
  · unfold runScraper
    rw [runConfigs_disabled_skipped fetch now d hd cfgs₁ cfgs₂ 1000]
  · intro n
    exact runConfigs_cons_disabled fetch now d cfgs₂ n hd

/-- Witness for C7 with a concrete disabled config. -/
theorem claim_C7_witness :
    runScraper exFetchNone "t" ([] ++ exDisabled :: []) (some (some []))
      = runScraper exFetchNone "t" ([] ++ []) (some (some [])) :=
  (claim_C7 exFetchNone "t" [] [] exDisabled rfl (some (some []))).1

/-- C8: a page whose navigation, rendering or extraction fails yields
zero records for that page while the remaining pages of the descriptor
are processed as if the failed page were absent, every acquired page
resource is released (the finally block runs on both paths), and the
descriptors after the affected one are processed unchanged. -/
theorem claim_C8 (fetch : FetchOracle) (cfg : Config) (now u : String)
    (us₁ us₂ : List String) (hu : fetch u = none) :
    (∀ n, scrapeUrls fetch cfg now (us₁ ++ u :: us₂) n
        = scrapeUrls fetch cfg now (us₁ ++ us₂) n)
    ∧ (pageTrace fetch (us₁ ++ u :: us₂)).countP isAcquired
        = (pageTrace fetch (us₁ ++ u :: us₂)).countP isReleased
    ∧ (∀ (cfgs : List Config) (n : Nat),
        runConfigs fetch now ({ cfg with urls := us₁ ++ u :: us₂ } :: cfgs) n
          = runConfigs fetch now ({ cfg with urls := us₁ ++ us₂ } :: cfgs) n) := by
  refine ⟨fun n => scrapeUrls_page_failure fetch cfg now u hu us₁ us₂ n,
    pageTrace_balanced fetch _, ?_⟩
  intro cfgs n
  apply runConfigs_cons_congr
  · intro m
    show (scrapeUrls fetch { cfg with urls := us₁ ++ u :: us₂ } now
        (us₁ ++ u :: us₂) m).1
      = (scrapeUrls fetch { cfg with urls := us₁ ++ us₂ } now (us₁ ++ us₂) m).1
    rw [scrapeUrls_config_update fetch cfg (us₁ ++ u :: us₂) now
        (us₁ ++ u :: us₂) m,
      scrapeUrls_config_update fetch cfg (us₁ ++ us₂) now (us₁ ++ us₂) m,
      scrapeUrls_page_failure fetch cfg now u hu us₁ us₂ m]
  · rfl

/-- Witness for C8 at a concrete failing page. -/
theorem claim_C8_witness :
    scrapeUrls exFetchNone exCfgOne "t" ([] ++ "u" :: []) 1000
      = scrapeUrls exFetchNone exCfgOne "t" ([] ++ []) 1000 :=
  (claim_C8 exFetchNone exCfgOne "t" "u" [] [] rfl).1 1000

/-- C9: loadCachedProducts returns the parsed catalog when the store file
exists and parses, and the empty list when the file is absent or
JSON.parse throws; as a total Lean function it raises nothing. -/
theorem claim_C9 (store : StoreRead) :
    (store = none → loadCachedProducts store = [])
    ∧ (store = some none → loadCachedProducts store = [])
    ∧ (∀ catalog : List Product,
        store = some (some catalog) → loadCachedProducts store = catalog) := by
  refine ⟨?_, ?_, ?_⟩
  · rintro rfl; rfl
  · rintro rfl; rfl
  · intro catalog h
    subst h
    rfl

/-- Witness for C9 at an absent store file. -/
theorem claim_C9_witness : loadCachedProducts none = [] :=
  (claim_C9 none).1 rfl

/-- C10: the product type is computed as detectType(rawName, "", url)
with the listing URL in the category slot, so a product is classified
Sunglasses exactly when its name or its listing URL contains one of the
keywords sun, tinted, polarized, uv after lower-casing, and Optical
exactly when neither does. -/
theorem claim_C10 (name url : String) :
    detectType name "" url
      = (if testAny typeKeys (jsToLower name) || testAny typeKeys (jsToLower url)
          then "Sunglasses" else "Optical")
    ∧ (∀ (cfg : Config) (now : String) (pid : Nat) (item : RawItem),
        (buildProduct cfg url now pid item).type
          = detectType item.rawName "" url) := by
  constructor
  · have h : testAny typeKeys (jsToLower (name ++ " " ++ "" ++ " " ++ url))
        = (testAny typeKeys (jsToLower name) || testAny typeKeys (jsToLower url)) := by
      apply testAny_split
      intro k hk
      have hmem : k = "sun" ∨ k = "tinted" ∨ k = "polarized" ∨ k = "uv" := by
        simpa [typeKeys] using hk
      rcases hmem with rfl | rfl | rfl | rfl <;>
        exact strIncludes_concat_split name url _ (by decide) (by decide)
    show (if testAny typeKeys (jsToLower (name ++ " " ++ "" ++ " " ++ url))
        then "Sunglasses" else "Optical") = _
    rw [h]
  · intro cfg now pid item
    rfl

end Lumina
